import Mathlib

/-!
Shallow embedding of the `equal-parts` Rust crate.

The crate splits a finite ordered sequence into a requested number of
contiguous near-equal parts.  Two realizations exist:

* `EqualPartsIter` / `equal_parts` — the borrowing iterator over a slice
  (`src/lib.rs`);
* `IntoEqualPartsIter` / `into_equal_parts` — the consuming iterator over a
  `Vec` (`src/into/vec.rs`).

Sequences are modelled as `List α`.  `usize` arithmetic is modelled as `Nat`
with panic points made explicit: every place where the Rust code can panic
(division by zero inside `div_ceil`, the `assert!` on `num_parts`, subtraction
underflow of `usize`, `split_at` / `drain` out of bounds and the
`debug_assert!`) is an `Except.error` carrying the panic kind.
-/

/-- The distinct panic sources of the Rust code. -/
inductive PanicKind where
  | divByZero
  | assertFail
  | subUnderflow
  | idxOutOfBounds
  | outOfFuel
deriving DecidableEq, Repr

/-- Rust `usize::div_ceil`: `self / rhs` plus one when the remainder is
non-zero.  The caller guards `rhs ≠ 0` (a zero divisor panics in Rust and is
modelled as an error at the call sites). -/
def div_ceil (a b : Nat) : Nat :=
  a / b + (if a % b > 0 then 1 else 0)

/-- State of the borrowing iterator (`EqualPartsIter<'a, T>` in
`src/lib.rs`): the remaining slice view, the full part size and how many
full-size parts are still to be emitted. -/
structure EqualPartsIter (α : Type) where
  data : List α
  part_size : Nat
  full_parts_left : Nat
deriving DecidableEq, Repr

/-- One `next` call of the borrowing iterator (`src/lib.rs`, lines 116-130).
Returns the emitted chunk (or `none` on exhaustion) together with the
successor state; `split_at` out of bounds and the `part_size - 1` underflow
in the short-part branch are explicit errors. -/
def EqualPartsIter.next {α : Type} (it : EqualPartsIter α) :
    Except PanicKind (Option (List α) × EqualPartsIter α) :=
  if it.data.isEmpty then
    .ok (none, it)
  else if it.full_parts_left > 0 then
    if it.part_size ≤ it.data.length then
      .ok (some (it.data.take it.part_size),
        ⟨it.data.drop it.part_size, it.part_size, it.full_parts_left - 1⟩)
    else
      .error .idxOutOfBounds
  else if it.part_size = 0 then
    .error .subUnderflow
  else if it.part_size - 1 ≤ it.data.length then
    .ok (some (it.data.take (it.part_size - 1)),
      ⟨it.data.drop (it.part_size - 1), it.part_size, it.full_parts_left⟩)
  else
    .error .idxOutOfBounds

/-- The constructor `<&[T] as EqualParts>::equal_parts` (`src/lib.rs`,
lines 137-145).  `num_parts = 0` makes `div_ceil` divide by zero; the two
`usize` subtractions are checked explicitly. -/
def equal_parts {α : Type} (data : List α) (num_parts : Nat) :
    Except PanicKind (EqualPartsIter α) :=
  if num_parts = 0 then
    .error .divByZero
  else
    let part_size := div_ceil data.length num_parts
    if data.length ≤ part_size * num_parts then
      let small_part_count := part_size * num_parts - data.length
      if small_part_count ≤ num_parts then
        .ok ⟨data, part_size, num_parts - small_part_count⟩
      else
        .error .subUnderflow
    else
      .error .subUnderflow

/-- State of the consuming iterator (`IntoEqualPartsIter<T>` in
`src/into/vec.rs`): the still-owned remainder, the full part size and how
many full-size parts are still to be emitted. -/
structure IntoEqualPartsIter (α : Type) where
  data : List α
  part_size : Nat
  full_parts_left : Nat
deriving DecidableEq, Repr

/-- One `next` call of the consuming iterator (`src/into/vec.rs`, lines
35-49).  The `debug_assert!(chunk_size <= self.data.len())` is the explicit
bound check (`drain` itself would also panic there); the `part_size - 1`
underflow in the short-part branch is an explicit error. -/
def IntoEqualPartsIter.next {α : Type} (it : IntoEqualPartsIter α) :
    Except PanicKind (Option (List α) × IntoEqualPartsIter α) :=
  if it.data.isEmpty then
    .ok (none, it)
  else if it.full_parts_left > 0 then
    if it.part_size ≤ it.data.length then
      .ok (some (it.data.take it.part_size),
        ⟨it.data.drop it.part_size, it.part_size, it.full_parts_left - 1⟩)
    else
      .error .assertFail
  else if it.part_size = 0 then
    .error .subUnderflow
  else if it.part_size - 1 ≤ it.data.length then
    .ok (some (it.data.take (it.part_size - 1)),
      ⟨it.data.drop (it.part_size - 1), it.part_size, it.full_parts_left⟩)
  else
    .error .assertFail

/-- The constructor `<Vec<T> as IntoEqualParts>::into_equal_parts`
(`src/into/vec.rs`, lines 56-67).  The `assert!(num_parts > 0)` runs first;
the two `usize` subtractions are checked explicitly. -/
def into_equal_parts {α : Type} (data : List α) (num_parts : Nat) :
    Except PanicKind (IntoEqualPartsIter α) :=
  if num_parts = 0 then
    .error .assertFail
  else
    let part_size := div_ceil data.length num_parts
    if data.length ≤ part_size * num_parts then
      let small_part_count := part_size * num_parts - data.length
      if small_part_count ≤ num_parts then
        .ok ⟨data, part_size, num_parts - small_part_count⟩
      else
        .error .subUnderflow
    else
      .error .subUnderflow

/-- Drive the borrowing iterator to exhaustion, collecting the emitted parts
in emission order.  `fuel` bounds the number of emissions; it only exists to
make the recursion structural and is always supplied ≥ the number of parts. -/
def EqualPartsIter.runAux {α : Type} :
    Nat → EqualPartsIter α → Except PanicKind (List (List α))
  | fuel, it =>
    match it.next with
    | .error e => .error e
    | .ok (none, _) => .ok []
    | .ok (some chunk, it2) =>
      match fuel with
      | 0 => .error .outOfFuel
      | fuel2 + 1 =>
        match EqualPartsIter.runAux fuel2 it2 with
        | .error e => .error e
        | .ok rest => .ok (chunk :: rest)

/-- Drive the consuming iterator to exhaustion, collecting the emitted parts
in emission order. -/
def IntoEqualPartsIter.runAux {α : Type} :
    Nat → IntoEqualPartsIter α → Except PanicKind (List (List α))
  | fuel, it =>
    match it.next with
    | .error e => .error e
    | .ok (none, _) => .ok []
    | .ok (some chunk, it2) =>
      match fuel with
      | 0 => .error .outOfFuel
      | fuel2 + 1 =>
        match IntoEqualPartsIter.runAux fuel2 it2 with
        | .error e => .error e
        | .ok rest => .ok (chunk :: rest)

/-- `data.equal_parts(num_parts)` followed by collecting all parts. -/
def runEqualParts {α : Type} (data : List α) (num_parts : Nat) :
    Except PanicKind (List (List α)) :=
  match equal_parts data num_parts with
  | .error e => .error e
  | .ok it => EqualPartsIter.runAux data.length it

/-- `data.into_equal_parts(num_parts)` followed by collecting all parts. -/
def runIntoEqualParts {α : Type} (data : List α) (num_parts : Nat) :
    Except PanicKind (List (List α)) :=
  match into_equal_parts data num_parts with
  | .error e => .error e
  | .ok it => IntoEqualPartsIter.runAux data.length it

/-- `n` successive chunks of size `sz` cut from the front of `d`. -/
def chunksOf {α : Type} (sz : Nat) : Nat → List α → List (List α)
  | 0, _ => []
  | n + 1, d => d.take sz :: chunksOf sz n (d.drop sz)

/-- The parts a full run of either iterator emits: `full_count` chunks of
size `full_size = div_ceil N K`, then the short chunks of size
`full_size - 1` that are actually reachable (none when `full_size ≤ 1`). -/
def plannedParts {α : Type} (d : List α) (K : Nat) : List (List α) :=
  let N := d.length
  let ps := div_ceil N K
  let fc := K - (ps * K - N)
  let sc := if 2 ≤ ps then ps * K - N else 0
  if N = 0 then [] else
    chunksOf ps fc d ++ chunksOf (ps - 1) sc (d.drop (fc * ps))

/-- Repeated stepping: `it.stepN n` is the result of the `(n+1)`-th `next`
call, threading the successor state through the first `n` calls. -/
def EqualPartsIter.stepN {α : Type} :
    EqualPartsIter α → Nat → Except PanicKind (Option (List α) × EqualPartsIter α)
  | it, 0 => it.next
  | it, n + 1 =>
    match it.next with
    | .error e => .error e
    | .ok (_, it2) => it2.stepN n

/-- Repeated stepping of the consuming iterator. -/
def IntoEqualPartsIter.stepN {α : Type} :
    IntoEqualPartsIter α → Nat →
      Except PanicKind (Option (List α) × IntoEqualPartsIter α)
  | it, 0 => it.next
  | it, n + 1 =>
    match it.next with
    | .error e => .error e
    | .ok (_, it2) => it2.stepN n

/-- Cost, in element moves, of one `next` call of the consuming iterator.
`self.data.drain(0..chunk_size).collect()` moves the `chunk_size` drained
elements into the freshly allocated part and then, when the `Drain` guard is
dropped, shifts the `len - chunk_size` retained elements to the front of the
buffer — `len` element moves in total.  An exhausted call moves nothing. -/
def IntoEqualPartsIter.nextCost {α : Type} (it : IntoEqualPartsIter α) : Nat :=
  if it.data.isEmpty then 0 else it.data.length

/-- Total element-move cost of driving the consuming iterator to
exhaustion. -/
def IntoEqualPartsIter.runCost {α : Type} :
    Nat → IntoEqualPartsIter α → Except PanicKind Nat
  | fuel, it =>
    match it.next with
    | .error e => .error e
    | .ok (none, _) => .ok 0
    | .ok (some _, it2) =>
      match fuel with
      | 0 => .error .outOfFuel
      | fuel2 + 1 =>
        match IntoEqualPartsIter.runCost fuel2 it2 with
        | .error e => .error e
        | .ok c => .ok (it.nextCost + c)

/-- `data.into_equal_parts(num_parts)` followed by exhausting the iterator,
returning the total element-move cost. -/
def runIntoEqualPartsCost {α : Type} (data : List α) (num_parts : Nat) :
    Except PanicKind Nat :=
  match into_equal_parts data num_parts with
  | .error e => .error e
  | .ok it => IntoEqualPartsIter.runCost data.length it







/-! ### Helper lemmas about `chunksOf` -/

theorem chunksOf_flatten {α : Type} (sz : Nat) :
    ∀ (n : Nat) (d : List α), (chunksOf sz n d).flatten = d.take (n * sz) := by
  intro n
  induction n with
  | zero => intro d; simp [chunksOf]
  | succ n ih =>
    intro d
    simp only [chunksOf, List.flatten_cons, ih (d.drop sz)]
    rw [Nat.succ_mul, Nat.add_comm, List.take_add]

theorem chunksOf_length {α : Type} (sz : Nat) :
    ∀ (n : Nat) (d : List α), (chunksOf sz n d).length = n := by
  intro n
  induction n with
  | zero => intro d; simp [chunksOf]
  | succ n ih => intro d; simp [chunksOf, ih]

theorem chunksOf_map_length {α : Type} (sz : Nat) :
    ∀ (n : Nat) (d : List α), n * sz ≤ d.length →
      (chunksOf sz n d).map List.length = List.replicate n sz := by
  intro n
  induction n with
  | zero => intro d _; simp [chunksOf]
  | succ n ih =>
    intro d hle
    have hmul : (n + 1) * sz = n * sz + sz := Nat.succ_mul n sz
    have hsz : sz ≤ d.length := by omega
    have hrec : n * sz ≤ (d.drop sz).length := by
      rw [List.length_drop]; omega
    simp only [chunksOf, List.map_cons, ih (d.drop sz) hrec,
      List.length_take, List.replicate_succ, Nat.min_eq_left hsz]

/-! ### Helper lemmas about `div_ceil` -/

theorem div_ceil_le_iff (N K m : Nat) (hK : 0 < K) :
    div_ceil N K ≤ m ↔ N ≤ m * K := by
  unfold div_ceil
  rcases Nat.eq_zero_or_pos (N % K) with h | h
  · simp only [h, gt_iff_lt, Nat.lt_irrefl, if_false, Nat.add_zero]
    constructor
    · intro hle
      calc N = K * (N / K) + N % K := (Nat.div_add_mod N K).symm
        _ = K * (N / K) := by omega
        _ ≤ K * m := Nat.mul_le_mul_left K hle
        _ = m * K := Nat.mul_comm K m
    · intro hle
      have h2 : N / K ≤ m * K / K := Nat.div_le_div_right hle
      rwa [Nat.mul_div_cancel m hK] at h2
  · simp only [gt_iff_lt, h, if_pos]
    have hlt : N / K < m ↔ N < m * K := Nat.div_lt_iff_lt_mul hK
    constructor
    · intro hle
      have := hlt.1 (by omega)
      omega
    · intro hle
      have hne : N ≠ m * K := by
        intro he
        rw [he, Nat.mul_mod_left] at h
        omega
      have := hlt.2 (by omega)
      omega

theorem le_div_ceil_mul (N K : Nat) (hK : 0 < K) : N ≤ div_ceil N K * K :=
  (div_ceil_le_iff N K (div_ceil N K) hK).1 (Nat.le_refl _)

theorem div_ceil_pos_iff (N K : Nat) (hK : 0 < K) :
    1 ≤ div_ceil N K ↔ 1 ≤ N := by
  have h := div_ceil_le_iff N K 0 hK
  omega

theorem div_ceil_two_le_iff (N K : Nat) (hK : 0 < K) :
    2 ≤ div_ceil N K ↔ K < N := by
  have h := div_ceil_le_iff N K 1 hK
  omega

theorem pred_div_ceil_mul_lt (N K : Nat) (hK : 0 < K) (hN : 0 < N) :
    (div_ceil N K - 1) * K < N := by
  have hps : 1 ≤ div_ceil N K := (div_ceil_pos_iff N K hK).2 hN
  by_contra h
  push_neg at h
  have := (div_ceil_le_iff N K (div_ceil N K - 1) hK).2 h
  omega

theorem small_part_count_lt (N K : Nat) (hK : 0 < K) (hN : 0 < N) :
    div_ceil N K * K - N < K := by
  have hp := pred_div_ceil_mul_lt N K hK hN
  have he : (div_ceil N K - 1) * K = div_ceil N K * K - 1 * K :=
    Nat.sub_mul (div_ceil N K) 1 K
  have h1 : 1 ≤ div_ceil N K := (div_ceil_pos_iff N K hK).2 hN
  have h2 : 1 * K ≤ div_ceil N K * K := Nat.mul_le_mul_right K h1
  omega

theorem small_part_count_le (N K : Nat) (hK : 0 < K) :
    div_ceil N K * K - N ≤ K := by
  rcases Nat.eq_zero_or_pos N with h0 | h0
  · subst h0
    simp [div_ceil]
  · exact Nat.le_of_lt (small_part_count_lt N K hK h0)

theorem div_ceil_one (N : Nat) : div_ceil N 1 = N := by
  simp [div_ceil, Nat.mod_one]

/-! ### The closed form of a full run -/

theorem borrowRunAux_eq {α : Type} (fuel : Nat) :
    ∀ (d : List α) (ps fpl r : Nat),
      d.length = fpl * ps + r * (ps - 1) →
      (fpl ≠ 0 → 1 ≤ ps) →
      (r ≠ 0 → 2 ≤ ps) →
      fpl + r ≤ fuel →
      EqualPartsIter.runAux fuel ⟨d, ps, fpl⟩ =
        .ok (chunksOf ps fpl d ++ chunksOf (ps - 1) r (d.drop (fpl * ps))) := by
  induction fuel with
  | zero =>
    intro d ps fpl r hlen h1 h2 hfuel
    have hfpl : fpl = 0 := by omega
    have hr : r = 0 := by omega
    subst hfpl
    subst hr
    have hd : d = [] := by
      cases d with
      | nil => rfl
      | cons a t => simp at hlen
    subst hd
    simp [EqualPartsIter.runAux, EqualPartsIter.next, chunksOf]
  | succ fuel ih =>
    intro d ps fpl r hlen h1 h2 hfuel
    by_cases hd : d = []
    · subst hd
      have hfpl : fpl = 0 := by
        rcases Nat.eq_zero_or_pos fpl with h | h
        · exact h
        · have hps := h1 (by omega)
          have := Nat.mul_pos h (by omega : 0 < ps)
          simp at hlen
          omega
      have hr : r = 0 := by
        rcases Nat.eq_zero_or_pos r with h | h
        · exact h
        · have hps := h2 (by omega)
          have := Nat.mul_pos h (by omega : 0 < ps - 1)
          simp at hlen
          omega
      subst hfpl
      subst hr
      simp [EqualPartsIter.runAux, EqualPartsIter.next, chunksOf]
    · have hlen0 : 0 < d.length := List.length_pos.mpr hd
      cases fpl with
      | succ f =>
        have hps : 1 ≤ ps := h1 (by omega)
        have hmul : (f + 1) * ps = f * ps + ps := Nat.succ_mul f ps
        have hbound : ps ≤ d.length := by omega
        have hnext : EqualPartsIter.next ⟨d, ps, f + 1⟩ =
            .ok (some (d.take ps), ⟨d.drop ps, ps, f⟩) := by
          simp [EqualPartsIter.next, List.isEmpty_iff, hd, hbound]
        have hrec := ih (d.drop ps) ps f r
          (by rw [List.length_drop]; omega)
          (fun _ => hps) h2 (by omega)
        simp only [EqualPartsIter.runAux, hnext, hrec]
        simp [chunksOf, List.drop_drop, hmul, Nat.add_comm]
      | zero =>
        have hr : r ≠ 0 := by
          intro h
          subst h
          simp only [Nat.zero_mul, Nat.mul_zero, Nat.add_zero, Nat.zero_add] at hlen
          omega
        have hps : 2 ≤ ps := h2 hr
        obtain ⟨r2, rfl⟩ : ∃ r2, r = r2 + 1 := ⟨r - 1, by omega⟩
        have hmul : (r2 + 1) * (ps - 1) = r2 * (ps - 1) + (ps - 1) :=
          Nat.succ_mul r2 (ps - 1)
        have hbound : ps - 1 ≤ d.length := by omega
        have hnext : EqualPartsIter.next ⟨d, ps, 0⟩ =
            .ok (some (d.take (ps - 1)), ⟨d.drop (ps - 1), ps, 0⟩) := by
          simp [EqualPartsIter.next, List.isEmpty_iff, hd, hbound]
          omega
        have hrec := ih (d.drop (ps - 1)) ps 0 r2
          (by rw [List.length_drop]; omega)
          (by omega) (fun _ => hps) (by omega)
        simp only [EqualPartsIter.runAux, hnext, hrec]
        simp [chunksOf]

theorem intoRunAux_eq {α : Type} (fuel : Nat) :
    ∀ (d : List α) (ps fpl r : Nat),
      d.length = fpl * ps + r * (ps - 1) →
      (fpl ≠ 0 → 1 ≤ ps) →
      (r ≠ 0 → 2 ≤ ps) →
      fpl + r ≤ fuel →
      IntoEqualPartsIter.runAux fuel ⟨d, ps, fpl⟩ =
        .ok (chunksOf ps fpl d ++ chunksOf (ps - 1) r (d.drop (fpl * ps))) := by
  induction fuel with
  | zero =>
    intro d ps fpl r hlen h1 h2 hfuel
    have hfpl : fpl = 0 := by omega
    have hr : r = 0 := by omega
    subst hfpl
    subst hr
    have hd : d = [] := by
      cases d with
      | nil => rfl
      | cons a t => simp at hlen
    subst hd
    simp [IntoEqualPartsIter.runAux, IntoEqualPartsIter.next, chunksOf]
  | succ fuel ih =>
    intro d ps fpl r hlen h1 h2 hfuel
    by_cases hd : d = []
    · subst hd
      have hfpl : fpl = 0 := by
        rcases Nat.eq_zero_or_pos fpl with h | h
        · exact h
        · have hps := h1 (by omega)
          have := Nat.mul_pos h (by omega : 0 < ps)
          simp at hlen
          omega
      have hr : r = 0 := by
        rcases Nat.eq_zero_or_pos r with h | h
        · exact h
        · have hps := h2 (by omega)
          have := Nat.mul_pos h (by omega : 0 < ps - 1)
          simp at hlen
          omega
      subst hfpl
      subst hr
      simp [IntoEqualPartsIter.runAux, IntoEqualPartsIter.next, chunksOf]
    · have hlen0 : 0 < d.length := List.length_pos.mpr hd
      cases fpl with
      | succ f =>
        have hps : 1 ≤ ps := h1 (by omega)
        have hmul : (f + 1) * ps = f * ps + ps := Nat.succ_mul f ps
        have hbound : ps ≤ d.length := by omega
        have hnext : IntoEqualPartsIter.next ⟨d, ps, f + 1⟩ =
            .ok (some (d.take ps), ⟨d.drop ps, ps, f⟩) := by
          simp [IntoEqualPartsIter.next, List.isEmpty_iff, hd, hbound]
        have hrec := ih (d.drop ps) ps f r
          (by rw [List.length_drop]; omega)
          (fun _ => hps) h2 (by omega)
        simp only [IntoEqualPartsIter.runAux, hnext, hrec]
        simp [chunksOf, List.drop_drop, hmul, Nat.add_comm]
      | zero =>
        have hr : r ≠ 0 := by
          intro h
          subst h
          simp only [Nat.zero_mul, Nat.mul_zero, Nat.add_zero, Nat.zero_add] at hlen
          omega
        have hps : 2 ≤ ps := h2 hr
        obtain ⟨r2, rfl⟩ : ∃ r2, r = r2 + 1 := ⟨r - 1, by omega⟩
        have hmul : (r2 + 1) * (ps - 1) = r2 * (ps - 1) + (ps - 1) :=
          Nat.succ_mul r2 (ps - 1)
        have hbound : ps - 1 ≤ d.length := by omega
        have hnext : IntoEqualPartsIter.next ⟨d, ps, 0⟩ =
            .ok (some (d.take (ps - 1)), ⟨d.drop (ps - 1), ps, 0⟩) := by
          simp [IntoEqualPartsIter.next, List.isEmpty_iff, hd, hbound]
          omega
        have hrec := ih (d.drop (ps - 1)) ps 0 r2
          (by rw [List.length_drop]; omega)
          (by omega) (fun _ => hps) (by omega)
        simp only [IntoEqualPartsIter.runAux, hnext, hrec]
        simp [chunksOf]

theorem plan_split (N K : Nat) (hK : 0 < K) (hN : 0 < N) :
    N = (K - (div_ceil N K * K - N)) * div_ceil N K +
      (if 2 ≤ div_ceil N K then div_ceil N K * K - N else 0) *
        (div_ceil N K - 1) := by
  have hps : 1 ≤ div_ceil N K := (div_ceil_pos_iff N K hK).2 hN
  obtain ⟨p, hp⟩ : ∃ p, div_ceil N K = p + 1 := ⟨div_ceil N K - 1, by omega⟩
  rw [hp]
  have hle : N ≤ (p + 1) * K := by
    have := le_div_ceil_mul N K hK
    rw [hp] at this
    exact this
  have hsc : (p + 1) * K - N ≤ K := by
    have := small_part_count_le N K hK
    rw [hp] at this
    exact this
  by_cases h2 : 2 ≤ p + 1
  · rw [if_pos h2]
    have e0 : (p + 1) * K = K * (p + 1) := Nat.mul_comm (p + 1) K
    have e1 : (K - ((p + 1) * K - N)) * (p + 1) =
        K * (p + 1) - ((p + 1) * K - N) * (p + 1) :=
      Nat.sub_mul K ((p + 1) * K - N) (p + 1)
    have e2 : ((p + 1) * K - N) * (p + 1) =
        ((p + 1) * K - N) * p + ((p + 1) * K - N) :=
      Nat.mul_succ ((p + 1) * K - N) p
    have e3 : ((p + 1) * K - N) * (p + 1) ≤ K * (p + 1) := by
      rw [e0] at hsc ⊢
      exact Nat.mul_le_mul_right (p + 1) (by omega)
    simp only [Nat.add_sub_cancel]
    omega
  · rw [if_neg h2]
    have hp1 : p = 0 := by omega
    subst hp1
    have hNK : N ≤ K := by omega
    omega

/-- For `num_parts > 0` the borrowing constructor succeeds and builds the
documented plan state. -/
theorem equal_parts_ok {α : Type} (d : List α) (K : Nat) (hK : 0 < K) :
    equal_parts d K =
      .ok ⟨d, div_ceil d.length K,
        K - (div_ceil d.length K * K - d.length)⟩ := by
  have hle := le_div_ceil_mul d.length K hK
  have hsc := small_part_count_le d.length K hK
  simp [equal_parts, hK.ne', hle, hsc]

/-- For `num_parts > 0` the consuming constructor succeeds and builds the
documented plan state. -/
theorem into_equal_parts_ok {α : Type} (d : List α) (K : Nat) (hK : 0 < K) :
    into_equal_parts d K =
      .ok ⟨d, div_ceil d.length K,
        K - (div_ceil d.length K * K - d.length)⟩ := by
  have hle := le_div_ceil_mul d.length K hK
  have hsc := small_part_count_le d.length K hK
  simp [into_equal_parts, hK.ne', hle, hsc]

theorem runEqualParts_eq_plannedParts {α : Type} (d : List α) (K : Nat)
    (hK : 0 < K) : runEqualParts d K = .ok (plannedParts d K) := by
  have hcons := equal_parts_ok d K hK
  have hmain : EqualPartsIter.runAux d.length
      (⟨d, div_ceil d.length K,
        K - (div_ceil d.length K * K - d.length)⟩ : EqualPartsIter α) =
      .ok (plannedParts d K) := by
    rcases Nat.eq_zero_or_pos d.length with h0 | h0
    · have hd : d = [] := List.length_eq_zero.mp h0
      subst hd
      simp [EqualPartsIter.runAux, EqualPartsIter.next, plannedParts]
    · have hps : 1 ≤ div_ceil d.length K :=
        (div_ceil_pos_iff d.length K hK).2 h0
      have hsplit := plan_split d.length K hK h0
      have hK1 : ¬ 2 ≤ div_ceil d.length K → d.length ≤ K := by
        intro h2
        have h := (div_ceil_le_iff d.length K 1 hK).1 (by omega)
        omega
      have hsc := small_part_count_le d.length K hK
      have hfuel : K - (div_ceil d.length K * K - d.length) +
          (if 2 ≤ div_ceil d.length K then
            div_ceil d.length K * K - d.length else 0) ≤ d.length := by
        by_cases h2 : 2 ≤ div_ceil d.length K
        · rw [if_pos h2]
          have := (div_ceil_two_le_iff d.length K hK).1 h2
          omega
        · rw [if_neg h2]
          have h1 : div_ceil d.length K = 1 := by omega
          have := hK1 h2
          rw [h1]
          omega
      have hrun := borrowRunAux_eq d.length d (div_ceil d.length K)
        (K - (div_ceil d.length K * K - d.length))
        (if 2 ≤ div_ceil d.length K then
          div_ceil d.length K * K - d.length else 0)
        hsplit (fun _ => hps)
        (fun hr => by
          by_cases h2 : 2 ≤ div_ceil d.length K
          · exact h2
          · rw [if_neg h2] at hr
            omega)
        hfuel
      rw [hrun]
      simp only [plannedParts]
      rw [if_neg (by omega : ¬ d.length = 0)]
  simp [runEqualParts, hcons, hmain]

theorem runIntoEqualParts_eq_plannedParts {α : Type} (d : List α) (K : Nat)
    (hK : 0 < K) : runIntoEqualParts d K = .ok (plannedParts d K) := by
  have hcons := into_equal_parts_ok d K hK
  have hmain : IntoEqualPartsIter.runAux d.length
      (⟨d, div_ceil d.length K,
        K - (div_ceil d.length K * K - d.length)⟩ : IntoEqualPartsIter α) =
      .ok (plannedParts d K) := by
    rcases Nat.eq_zero_or_pos d.length with h0 | h0
    · have hd : d = [] := List.length_eq_zero.mp h0
      subst hd
      simp [IntoEqualPartsIter.runAux, IntoEqualPartsIter.next, plannedParts]
    · have hps : 1 ≤ div_ceil d.length K :=
        (div_ceil_pos_iff d.length K hK).2 h0
      have hsplit := plan_split d.length K hK h0
      have hK1 : ¬ 2 ≤ div_ceil d.length K → d.length ≤ K := by
        intro h2
        have h := (div_ceil_le_iff d.length K 1 hK).1 (by omega)
        omega
      have hsc := small_part_count_le d.length K hK
      have hfuel : K - (div_ceil d.length K * K - d.length) +
          (if 2 ≤ div_ceil d.length K then
            div_ceil d.length K * K - d.length else 0) ≤ d.length := by
        by_cases h2 : 2 ≤ div_ceil d.length K
        · rw [if_pos h2]
          have := (div_ceil_two_le_iff d.length K hK).1 h2
          omega
        · rw [if_neg h2]
          have h1 : div_ceil d.length K = 1 := by omega
          have := hK1 h2
          rw [h1]
          omega
      have hrun := intoRunAux_eq d.length d
        (div_ceil d.length K)
        (K - (div_ceil d.length K * K - d.length))
        (if 2 ≤ div_ceil d.length K then
          div_ceil d.length K * K - d.length else 0)
        hsplit (fun _ => hps)
        (fun hr => by
          by_cases h2 : 2 ≤ div_ceil d.length K
          · exact h2
          · rw [if_neg h2] at hr
            omega)
        hfuel
      rw [hrun]
      simp only [plannedParts]
      rw [if_neg (by omega : ¬ d.length = 0)]
  simp [runIntoEqualParts, hcons, hmain]

theorem plan_split_raw (N K : Nat) (hK : 0 < K) :
    (K - (div_ceil N K * K - N)) * div_ceil N K +
      (div_ceil N K * K - N) * (div_ceil N K - 1) = N := by
  by_cases h2 : 2 ≤ div_ceil N K
  · have h0 : 0 < N := by
      have := (div_ceil_two_le_iff N K hK).1 h2
      omega
    have h := plan_split N K hK h0
    rw [if_pos h2] at h
    omega
  · rcases Nat.eq_zero_or_pos (div_ceil N K) with h | h
    · have hN0 : N = 0 := by
        have := div_ceil_pos_iff N K hK
        omega
      rw [h, hN0]
      simp
    · have h1 : div_ceil N K = 1 := by omega
      have hNK : N ≤ K := by
        have := (div_ceil_le_iff N K 1 hK).1 (by omega)
        omega
      rw [h1]
      omega

theorem plannedParts_flatten {α : Type} (d : List α) (K : Nat) (hK : 0 < K) :
    (plannedParts d K).flatten = d := by
  simp only [plannedParts]
  rcases Nat.eq_zero_or_pos d.length with h0 | h0
  · rw [if_pos h0]
    have : d = [] := List.length_eq_zero.mp h0
    simp [this]
  · rw [if_neg (by omega : ¬ d.length = 0)]
    rw [List.flatten_append, chunksOf_flatten, chunksOf_flatten, ← List.take_add]
    have hsplit := plan_split d.length K hK h0
    rw [← hsplit]
    exact List.take_length d

theorem plannedParts_map_length {α : Type} (d : List α) (K : Nat)
    (hK : 0 < K) :
    (plannedParts d K).map List.length =
      if d.length = 0 then [] else
        List.replicate (K - (div_ceil d.length K * K - d.length))
            (div_ceil d.length K) ++
          List.replicate
            (if 2 ≤ div_ceil d.length K then
              div_ceil d.length K * K - d.length else 0)
            (div_ceil d.length K - 1) := by
  simp only [plannedParts]
  rcases Nat.eq_zero_or_pos d.length with h0 | h0
  · rw [if_pos h0, if_pos h0]
    simp [chunksOf]
  · rw [if_neg (by omega : ¬ d.length = 0), if_neg (by omega : ¬ d.length = 0)]
    have hsplit := plan_split d.length K hK h0
    rw [List.map_append]
    rw [chunksOf_map_length _ _ _ (by omega)]
    rw [chunksOf_map_length _ _ _ (by rw [List.length_drop]; omega)]

theorem plannedParts_count {α : Type} (d : List α) (K : Nat) (hK : 0 < K) :
    (plannedParts d K).length =
      if d.length = 0 then 0 else min d.length K := by
  simp only [plannedParts]
  rcases Nat.eq_zero_or_pos d.length with h0 | h0
  · rw [if_pos h0, if_pos h0]
    rfl
  · rw [if_neg (by omega : ¬ d.length = 0), if_neg (by omega : ¬ d.length = 0)]
    rw [List.length_append, chunksOf_length, chunksOf_length]
    by_cases h2 : 2 ≤ div_ceil d.length K
    · rw [if_pos h2]
      have hKN := (div_ceil_two_le_iff d.length K hK).1 h2
      have hsc := small_part_count_le d.length K hK
      omega
    · rw [if_neg h2]
      have hps : 1 ≤ div_ceil d.length K :=
        (div_ceil_pos_iff d.length K hK).2 h0
      have h1 : div_ceil d.length K = 1 := by omega
      have hNK : d.length ≤ K := by
        have := (div_ceil_le_iff d.length K 1 hK).1 (by omega)
        omega
      rw [h1]
      omega

theorem runCost_singletons {α : Type} :
    ∀ (d : List α) (fuel : Nat), d.length ≤ fuel →
      IntoEqualPartsIter.runCost fuel ⟨d, 1, d.length⟩ =
        .ok (d.length * (d.length + 1) / 2) := by
  intro d
  induction d with
  | nil =>
    intro fuel _
    simp [IntoEqualPartsIter.runCost, IntoEqualPartsIter.next]
  | cons a t ih =>
    intro fuel hfuel
    obtain ⟨f, rfl⟩ : ∃ f, fuel = f + 1 := by
      cases fuel with
      | zero => simp at hfuel
      | succ f => exact ⟨f, rfl⟩
    have hnext : IntoEqualPartsIter.next ⟨a :: t, 1, (a :: t).length⟩ =
        .ok (some [a], ⟨t, 1, t.length⟩) := by
      simp [IntoEqualPartsIter.next]
    have hrec := ih f (by simp at hfuel ⊢; omega)
    simp only [IntoEqualPartsIter.runCost, hnext, hrec,
      IntoEqualPartsIter.nextCost]
    have harith : ∀ m : Nat, (m + 1) + m * (m + 1) / 2 =
        (m + 1) * (m + 1 + 1) / 2 := by
      intro m
      have he : (m + 1) * (m + 1 + 1) = m * (m + 1) + (m + 1) * 2 := by ring
      rw [he, Nat.add_mul_div_right _ _ (by omega : 0 < 2)]
      omega
    simp [List.length_cons, harith t.length]

theorem div_ceil_self (n : Nat) (hn : 0 < n) : div_ceil n n = 1 := by
  simp [div_ceil, Nat.div_self hn, Nat.mod_self]

/-! ### The claims -/

/-- Claim C1: for every sequence and every `num_parts K > 0`, both iterators
emit the same parts, concatenating the emitted parts in emission order
reproduces the original sequence exactly, and the emitted lengths sum to the
original length `N`. -/
theorem C1_concat_reproduces {α : Type} (d : List α) (K : Nat) (hK : 0 < K) :
    ∃ parts, runEqualParts d K = .ok parts ∧
      runIntoEqualParts d K = .ok parts ∧
      parts.flatten = d ∧
      (parts.map List.length).sum = d.length := by
  refine ⟨plannedParts d K, runEqualParts_eq_plannedParts d K hK,
    runIntoEqualParts_eq_plannedParts d K hK, plannedParts_flatten d K hK, ?_⟩
  rw [← List.length_flatten, plannedParts_flatten d K hK]

theorem C1_witness :
    ∃ parts, runEqualParts [1, 2, 3, 4, 5] 2 = .ok parts ∧
      runIntoEqualParts [1, 2, 3, 4, 5] 2 = .ok parts ∧
      parts.flatten = [1, 2, 3, 4, 5] ∧
      (parts.map List.length).sum = [1, 2, 3, 4, 5].length :=
  C1_concat_reproduces [1, 2, 3, 4, 5] 2 (by decide)

/-- Claim C2: every emitted part has length `ceil(N/K)` or `ceil(N/K) - 1`,
no emitted part is empty, and the emitted length sequence is some number of
full sizes followed by some number of short sizes (full parts first). -/
theorem C2_part_sizes {α : Type} (d : List α) (K : Nat) (hK : 0 < K) :
    ∃ parts, runEqualParts d K = .ok parts ∧
      runIntoEqualParts d K = .ok parts ∧
      (∀ p ∈ parts, p.length = div_ceil d.length K ∨
        p.length = div_ceil d.length K - 1) ∧
      (∀ p ∈ parts, 0 < p.length) ∧
      ∃ a b, parts.map List.length =
        List.replicate a (div_ceil d.length K) ++
          List.replicate b (div_ceil d.length K - 1) := by
  have hmap := plannedParts_map_length d K hK
  rcases Nat.eq_zero_or_pos d.length with h0 | h0
  · rw [if_pos h0] at hmap
    have hnil : plannedParts d K = [] := List.map_eq_nil_iff.mp hmap
    refine ⟨plannedParts d K, runEqualParts_eq_plannedParts d K hK,
      runIntoEqualParts_eq_plannedParts d K hK, ?_, ?_, 0, 0, ?_⟩
    · simp [hnil]
    · simp [hnil]
    · simp [hnil]
  · rw [if_neg (by omega : ¬ d.length = 0)] at hmap
    have hps : 1 ≤ div_ceil d.length K :=
      (div_ceil_pos_iff d.length K hK).2 h0
    refine ⟨plannedParts d K, runEqualParts_eq_plannedParts d K hK,
      runIntoEqualParts_eq_plannedParts d K hK, ?_, ?_, _, _, hmap⟩
    · intro p hp
      have hm := List.mem_map_of_mem List.length hp
      rw [hmap] at hm
      rcases List.mem_append.mp hm with h | h
      · exact Or.inl (List.eq_of_mem_replicate h)
      · exact Or.inr (List.eq_of_mem_replicate h)
    · intro p hp
      have hm := List.mem_map_of_mem List.length hp
      rw [hmap] at hm
      rcases List.mem_append.mp hm with h | h
      · have := List.eq_of_mem_replicate h
        omega
      · rcases List.mem_replicate.mp h with ⟨hb, hv⟩
        by_cases h2 : 2 ≤ div_ceil d.length K
        · omega
        · rw [if_neg h2] at hb
          omega

theorem C2_witness :
    ∃ parts, runEqualParts [1, 2, 3, 4, 5, 6, 7] 3 = .ok parts ∧
      runIntoEqualParts [1, 2, 3, 4, 5, 6, 7] 3 = .ok parts ∧
      (∀ p ∈ parts, p.length = div_ceil [1, 2, 3, 4, 5, 6, 7].length 3 ∨
        p.length = div_ceil [1, 2, 3, 4, 5, 6, 7].length 3 - 1) ∧
      (∀ p ∈ parts, 0 < p.length) ∧
      ∃ a b, parts.map List.length =
        List.replicate a (div_ceil [1, 2, 3, 4, 5, 6, 7].length 3) ++
          List.replicate b (div_ceil [1, 2, 3, 4, 5, 6, 7].length 3 - 1) :=
  C2_part_sizes [1, 2, 3, 4, 5, 6, 7] 3 (by decide)

/-- Claim C3: both iterators emit exactly `min(N, K)` parts when `N > 0` and
no part when `N = 0`. -/
theorem C3_part_count {α : Type} (d : List α) (K : Nat) (hK : 0 < K) :
    ∃ parts, runEqualParts d K = .ok parts ∧
      runIntoEqualParts d K = .ok parts ∧
      parts.length = if d.length = 0 then 0 else min d.length K :=
  ⟨plannedParts d K, runEqualParts_eq_plannedParts d K hK,
    runIntoEqualParts_eq_plannedParts d K hK, plannedParts_count d K hK⟩

theorem C3_witness :
    ∃ parts, runEqualParts [1, 2] 5 = .ok parts ∧
      runIntoEqualParts [1, 2] 5 = .ok parts ∧
      parts.length = if [1, 2].length = 0 then 0 else min [1, 2].length 5 :=
  C3_part_count [1, 2] 5 (by decide)

/-- Claim C4: both operations fail exactly when `num_parts = 0`, at
construction time, with the panic of the respective constructor; for every
`num_parts > 0` construction succeeds and the whole run completes without
failure, for every input. -/
theorem C4_fail_iff_zero_parts {α : Type} (d : List α) :
    equal_parts d 0 = .error PanicKind.divByZero ∧
    into_equal_parts d 0 = .error PanicKind.assertFail ∧
    ∀ K, 0 < K →
      (∃ it, equal_parts d K = .ok it) ∧
      (∃ it, into_equal_parts d K = .ok it) ∧
      (∃ parts, runEqualParts d K = .ok parts) ∧
      (∃ parts, runIntoEqualParts d K = .ok parts) := by
  refine ⟨by simp [equal_parts], by simp [into_equal_parts], ?_⟩
  intro K hK
  exact ⟨⟨_, equal_parts_ok d K hK⟩, ⟨_, into_equal_parts_ok d K hK⟩,
    ⟨_, runEqualParts_eq_plannedParts d K hK⟩,
    ⟨_, runIntoEqualParts_eq_plannedParts d K hK⟩⟩

theorem C4_witness :
    equal_parts ([1, 2, 3] : List Nat) 0 = .error PanicKind.divByZero ∧
    (∃ it, equal_parts ([1, 2, 3] : List Nat) 5 = .ok it) ∧
    (∃ parts, runIntoEqualParts ([1, 2, 3] : List Nat) 5 = .ok parts) :=
  ⟨(C4_fail_iff_zero_parts [1, 2, 3]).1,
   ((C4_fail_iff_zero_parts [1, 2, 3]).2.2 5 (by decide)).1,
   ((C4_fail_iff_zero_parts [1, 2, 3]).2.2 5 (by decide)).2.2.2⟩

/-- Claim C5: for the same sequence and the same `num_parts K > 0`, the
borrowing and the consuming iterator emit identical part lists. -/
theorem C5_borrowing_consuming_agree {α : Type} (d : List α) (K : Nat)
    (hK : 0 < K) : runIntoEqualParts d K = runEqualParts d K := by
  rw [runEqualParts_eq_plannedParts d K hK,
    runIntoEqualParts_eq_plannedParts d K hK]

theorem C5_witness :
    runIntoEqualParts [1, 2, 3] 2 = runEqualParts [1, 2, 3] 2 :=
  C5_borrowing_consuming_agree [1, 2, 3] 2 (by decide)

/-- Claim C6: the plan values `full_size = div_ceil N K`,
`short_size = full_size - 1`, `full_count = K - (full_size * K - N)` and
`short_count = full_size * K - N` satisfy the stated postconditions, and
both constructors build exactly this plan. -/
theorem C6_plan_postconditions (N K : Nat) (hK : 0 < K) :
    (K - (div_ceil N K * K - N)) + (div_ceil N K * K - N) = K ∧
    (K - (div_ceil N K * K - N)) * div_ceil N K +
      (div_ceil N K * K - N) * (div_ceil N K - 1) = N ∧
    div_ceil N K - 1 ≤ div_ceil N K ∧
    (div_ceil N K ≠ 0 → div_ceil N K - (div_ceil N K - 1) = 1) ∧
    (div_ceil N K = 0 → N = 0) ∧
    ∀ (d : List Nat), d.length = N →
      equal_parts d K = .ok ⟨d, div_ceil N K, K - (div_ceil N K * K - N)⟩ ∧
      into_equal_parts d K =
        .ok ⟨d, div_ceil N K, K - (div_ceil N K * K - N)⟩ := by
  have hsc := small_part_count_le N K hK
  refine ⟨by omega, plan_split_raw N K hK, by omega, by omega, ?_, ?_⟩
  · intro h
    have := div_ceil_pos_iff N K hK
    omega
  · intro d hd
    subst hd
    exact ⟨equal_parts_ok d K hK, into_equal_parts_ok d K hK⟩

theorem C6_witness :
    (3 - (div_ceil 7 3 * 3 - 7)) + (div_ceil 7 3 * 3 - 7) = 3 ∧
    (3 - (div_ceil 7 3 * 3 - 7)) * div_ceil 7 3 +
      (div_ceil 7 3 * 3 - 7) * (div_ceil 7 3 - 1) = 7 :=
  ⟨(C6_plan_postconditions 7 3 (by decide)).1,
   (C6_plan_postconditions 7 3 (by decide)).2.1⟩

/-- Claim C7: with `num_parts = 1` and a non-empty sequence, each operation
emits exactly one part equal to the entire sequence. -/
theorem C7_single_part {α : Type} (d : List α) (hd : 0 < d.length) :
    runEqualParts d 1 = .ok [d] ∧ runIntoEqualParts d 1 = .ok [d] := by
  have hplan : plannedParts d 1 = [d] := by
    simp only [plannedParts, div_ceil_one]
    rw [if_neg (by omega : ¬ d.length = 0)]
    have h1 : d.length * 1 - d.length = 0 := by omega
    rw [h1]
    simp [chunksOf]
  constructor
  · rw [runEqualParts_eq_plannedParts d 1 (by omega), hplan]
  · rw [runIntoEqualParts_eq_plannedParts d 1 (by omega), hplan]

theorem C7_witness :
    runEqualParts [9, 8, 7] 1 = .ok [[9, 8, 7]] ∧
    runIntoEqualParts [9, 8, 7] 1 = .ok [[9, 8, 7]] :=
  C7_single_part [9, 8, 7] (by decide)

/-- Claim C8: for both iterators the exhausted state (empty remainder) is
terminal — every further step yields nothing, with no error and the state
unchanged — and with `N = 0` the constructed initial state is already
exhausted. -/
theorem C8_exhausted_terminal {α : Type} :
    (∀ (it : EqualPartsIter α), it.data = [] →
      ∀ n, it.stepN n = .ok (none, it)) ∧
    (∀ (it : IntoEqualPartsIter α), it.data = [] →
      ∀ n, it.stepN n = .ok (none, it)) ∧
    ∀ K, 0 < K →
      equal_parts ([] : List α) K = .ok ⟨[], 0, K⟩ ∧
      into_equal_parts ([] : List α) K = .ok ⟨[], 0, K⟩ := by
  refine ⟨?_, ?_, ?_⟩
  · intro it hd n
    induction n with
    | zero => simp [EqualPartsIter.stepN, EqualPartsIter.next, hd]
    | succ n ih =>
      have hnext : it.next = .ok (none, it) := by
        simp [EqualPartsIter.next, hd]
      simp [EqualPartsIter.stepN, hnext, ih]
  · intro it hd n
    induction n with
    | zero => simp [IntoEqualPartsIter.stepN, IntoEqualPartsIter.next, hd]
    | succ n ih =>
      have hnext : it.next = .ok (none, it) := by
        simp [IntoEqualPartsIter.next, hd]
      simp [IntoEqualPartsIter.stepN, hnext, ih]
  · intro K hK
    have h1 := equal_parts_ok ([] : List α) K hK
    have h2 := into_equal_parts_ok ([] : List α) K hK
    simp [div_ceil] at h1 h2
    exact ⟨h1, h2⟩

theorem C8_witness :
    EqualPartsIter.stepN (⟨[], 2, 1⟩ : EqualPartsIter Nat) 5 =
      .ok (none, ⟨[], 2, 1⟩) ∧
    IntoEqualPartsIter.stepN (⟨[], 2, 1⟩ : IntoEqualPartsIter Nat) 5 =
      .ok (none, ⟨[], 2, 1⟩) :=
  ⟨(@C8_exhausted_terminal Nat).1 ⟨[], 2, 1⟩ rfl 5,
   (@C8_exhausted_terminal Nat).2.1 ⟨[], 2, 1⟩ rfl 5⟩

/-- Claim C9, refuted: with `num_parts = N` the consuming iterator's total
element-move cost is `N * (N + 1) / 2` — quadratic in `N`, not `O(N)` —
because each `drain(0..chunk_size)` call shifts the whole remaining tail. -/
theorem C9_drain_cost_quadratic {α : Type} (d : List α) (hd : 0 < d.length) :
    runIntoEqualPartsCost d d.length = .ok (d.length * (d.length + 1) / 2) := by
  have hps : div_ceil d.length d.length = 1 := div_ceil_self d.length hd
  have hcons := into_equal_parts_ok d d.length hd
  rw [hps] at hcons
  have hfc : d.length - (1 * d.length - d.length) = d.length := by omega
  rw [hfc] at hcons
  simp only [runIntoEqualPartsCost, hcons]
  exact runCost_singletons d d.length (Nat.le_refl _)

theorem C9_witness :
    runIntoEqualPartsCost (List.range 100) (List.range 100).length =
      .ok ((List.range 100).length * ((List.range 100).length + 1) / 2) :=
  C9_drain_cost_quadratic (List.range 100) (by decide)

/-- Claim C10: for every sequence and every `num_parts K > 0`, no step of
either iterator can panic — the short-branch subtraction never underflows,
every chosen chunk length is in bounds for `split_at` / `drain`, and the
constructor subtractions never underflow — so the whole run returns `ok`. -/
theorem C10_steps_safe {α : Type} (d : List α) (K : Nat) (hK : 0 < K) :
    (runEqualParts d K).isOk = true ∧ (runIntoEqualParts d K).isOk = true := by
  rw [runEqualParts_eq_plannedParts d K hK,
    runIntoEqualParts_eq_plannedParts d K hK]
  exact ⟨rfl, rfl⟩

theorem C10_witness :
    (runEqualParts [1, 2, 3] 2).isOk = true ∧
    (runIntoEqualParts [1, 2, 3] 2).isOk = true :=
  C10_steps_safe [1, 2, 3] 2 (by decide)

/-! ### Concrete scenarios from the crate's tests and docs -/

theorem scenario_even_split :
    runEqualParts [1, 2, 3, 4, 5, 6] 3 = .ok [[1, 2], [3, 4], [5, 6]] := by
  rfl

theorem scenario_uneven_split :
    runEqualParts [1, 2, 3, 4, 5, 6, 7] 3 =
      .ok [[1, 2, 3], [4, 5], [6, 7]] := by
  rfl

theorem scenario_into_ten_by_four :
    runIntoEqualParts [1, 2, 3, 4, 5, 6, 7, 8, 9, 10] 4 =
      .ok [[1, 2, 3], [4, 5, 6], [7, 8], [9, 10]] := by
  rfl

theorem scenario_fewer_elements_than_parts :
    runEqualParts [1, 2] 3 = .ok [[1], [2]] := by
  rfl

theorem scenario_empty_source :
    runEqualParts ([] : List Nat) 3 = .ok [] := by
  rfl

theorem scenario_single_element_many_parts :
    runIntoEqualParts [42] 5 = .ok [[42]] := by
  rfl

theorem scenario_zero_parts_panics :
    runEqualParts [1, 2, 3] 0 = .error .divByZero ∧
    runIntoEqualParts [1, 2, 3] 0 = .error .assertFail := by
  exact ⟨rfl, rfl⟩
